import Mathlib

/-!
Verification of the `pg_query_to_yadisk` export pipeline (`src/db.py`).

A shallow embedding of the one-shot batch utility in `src/db.py`: it runs a
PostgreSQL query, serializes the result to a CSV file, materializes the
remote WebDAV directory path segment by segment (MKCOL), uploads the file
(PUT), and cleans up the local temporary artifact.

Strings are modelled as `List Char` (`Str`).  The Python string operations
used by the source (`str.strip("/")`, `str.split("/")`, truthiness of
optional strings, `a or b`) are embedded faithfully, as is the CSV dialect
of Python's `csv` module (comma delimiter, double-quote quoting when a
field contains a delimiter / quote / CR / LF, doubled embedded quotes,
`\r\n` row terminator, and the lone-empty-field quoting rule).
-/

abbrev Str := List Char

/-- Python `s.strip(c)` drops every leading occurrence of `c`. -/
def dropLead (c : Char) (s : Str) : Str := s.dropWhile (fun x => x = c)

/-- Python `s.strip("/")` (for a single strip character `c`): remove all
leading and all trailing occurrences of `c`. -/
def pyStrip (c : Char) (s : Str) : Str :=
  ((dropLead c ((dropLead c s).reverse)).reverse)

/-- Python `s.split(c)`: always yields at least one (possibly empty) piece;
`"".split(c) = [""]`, `"a/b".split('/') = ["a", "b"]`. -/
def pySplit (c : Char) : Str → List Str
  | [] => [[]]
  | x :: xs =>
    if x = c then [] :: pySplit c xs
    else
      match pySplit c xs with
      | [] => [[x]]
      | y :: ys => (x :: y) :: ys

/-- Python truthiness of an optional string: `None` and `""` are falsy. -/
def pyFalsy : Option Str → Bool
  | none => true
  | some s => s.isEmpty

def pyTruthy (o : Option Str) : Bool := !(pyFalsy o)

/-- Python `o or d` on an optional string. -/
def pyOr (o : Option Str) (d : Str) : Str :=
  match o with
  | none => d
  | some s => if s.isEmpty then d else s

def pyGet (o : Option Str) : Str := o.getD []

/-- The accumulating-prefix loop of `main` (src/db.py lines 152-154):
`accum = accum + "/" + p if accum else p`, collecting each value of
`accum` in order. -/
def accumParts (accum : Str) : List Str → List Str
  | [] => []
  | p :: ps =>
    let a := if accum = [] then p else accum ++ '/' :: p
    a :: accumParts a ps

/-! The CSV dialect of Python's `csv` module (excel defaults) -/

def csvSpecial (c : Char) : Bool := c = ',' || c = '"' || c = '\r' || c = '\n'

/-- QUOTE_MINIMAL: a field is quoted iff it contains the delimiter, the
quote character, or a line-terminator character. -/
def csvNeedsQuote (f : Str) : Bool := f.any csvSpecial

/-- Inside a quoted field every embedded quote character is doubled. -/
def csvEscape : Str → Str
  | [] => []
  | c :: r => if c = '"' then '"' :: '"' :: csvEscape r else c :: csvEscape r

/-- Serialize one field: quoted (with doubled quotes) iff it needs quoting. -/
def csvField (f : Str) : Str :=
  if csvNeedsQuote f then '"' :: (csvEscape f ++ ['"']) else f

def joinComma : List Str → Str
  | [] => []
  | f :: [] => f
  | f :: g :: r => f ++ ',' :: joinComma (g :: r)

/-- Serialize one record, `\r\n`-terminated.  Python's writer quotes a
record consisting of a single empty field (so that it is not mistaken for
a blank line). -/
def csvRecord (fs : List Str) : Str :=
  (if fs = [([] : Str)] then ['"', '"'] else joinComma (fs.map csvField)) ++ ['\r', '\n']

/-- The file produced by `csv.DictWriter`: `writeheader()` followed by one
record per row (src/db.py lines 45-52). -/
def csvContent (header : List Str) (rows : List (List Str)) : Str :=
  csvRecord header ++ (rows.map csvRecord).flatten

/-! A standard delimited-text reader for the same dialect -/

/-- Character that terminates an unquoted field. -/
def csvStop (c : Char) : Bool := c = ',' || c = '\r' || c = '\n'

/-- Read the remainder of a quoted field (the opening quote has been
consumed); a doubled quote is an embedded quote, a single quote closes. -/
def splitQuoted : Str → Str × Str
  | [] => ([], [])
  | c :: rest =>
    if c = '"' then
      match rest with
      | [] => ([], [])
      | c2 :: r2 =>
        if c2 = '"' then
          let p := splitQuoted r2
          ('"' :: p.1, p.2)
        else ([], rest)
    else
      let p := splitQuoted rest
      (c :: p.1, p.2)

/-- Read an unquoted field: everything up to a delimiter or line end. -/
def splitUnquoted : Str → Str × Str
  | [] => ([], [])
  | c :: rest =>
    if csvStop c then ([], c :: rest)
    else
      let p := splitUnquoted rest
      (c :: p.1, p.2)

/-- Read one field, quoted or not. -/
def readField : Str → Str × Str
  | [] => ([], [])
  | c :: rest => if c = '"' then splitQuoted rest else splitUnquoted (c :: rest)

/-- Read one record: fields separated by `,`, the record terminated by
`\r\n`, a bare line end, or the end of input.  `fuel` bounds the number of
fields; `input.length + 1` always suffices. -/
def readRecord : Nat → Str → List Str × Str
  | 0, s => ([], s)
  | Nat.succ fuel, s =>
    let p := readField s
    match p.2 with
    | [] => ([p.1], [])
    | c :: r2 =>
      if c = ',' then
        let q := readRecord fuel r2
        (p.1 :: q.1, q.2)
      else if c = '\r' then
        match r2 with
        | [] => ([p.1], [])
        | c2 :: r3 => if c2 = '\n' then ([p.1], r3) else ([p.1], r2)
      else ([p.1], r2)

/-- Read all records.  `fuel` bounds the number of records;
`input.length + 1` always suffices. -/
def readCsv : Nat → Str → List (List Str)
  | 0, _ => []
  | Nat.succ fuel, s =>
    match s with
    | [] => []
    | _ :: _ =>
      let r := readRecord (s.length + 1) s
      r.1 :: readCsv fuel r.2

/-- Parse a whole CSV file. -/
def parseCsv (s : Str) : List (List Str) := readCsv (s.length + 1) s

/-! The query-and-serialize stage (`run_query_and_write_csv`, src/db.py lines 30-59)

The stage is modelled as a function of a scenario describing which of its
I/O operations succeed.  The trace records resource events in execution
order: `psycopg2.connect`, cursor creation, `cur.execute`, the `with
open(...)` block, and the `finally` block that always attempts
`cur.close()` (exceptions swallowed) and then calls `conn.close()`. -/

inductive DbEv where
  | connectTry
  | connected
  | cursorCreated
  | executeTry
  | executed
  | openTry
  | opened
  | fileClosed
  | curClose
  | connClose
deriving DecidableEq

/-- Which of the stage's I/O operations succeed, and the query result. -/
structure DbWorld where
  connectOk : Bool
  executeOk : Bool
  openOk : Bool
  writeOk : Bool
  fieldnames : List Str
  rows : List (List Str)

structure DbRes where
  trace : List DbEv
  opened : Bool
  ok : Bool
  content : Option Str
deriving DecidableEq

/-- Embedding of `run_query_and_write_csv`: connect, create the named
cursor, then inside `try`: execute, read the descriptor, open the local
file (`with` closes it on both paths), write header and rows; the
`finally` block closes the cursor (errors swallowed) and the connection.
An operation that fails aborts the body at that point; `ok = false` means
the exception propagates to the caller after the `finally` block ran. -/
def run_query_and_write_csv (w : DbWorld) : DbRes :=
  if w.connectOk = false then
    ⟨[.connectTry], false, false, none⟩
  else if w.executeOk = false then
    ⟨[.connectTry, .connected, .cursorCreated, .executeTry, .curClose, .connClose],
      false, false, none⟩
  else if w.openOk = false then
    ⟨[.connectTry, .connected, .cursorCreated, .executeTry, .executed, .openTry,
        .curClose, .connClose], false, false, none⟩
  else if w.writeOk = false then
    ⟨[.connectTry, .connected, .cursorCreated, .executeTry, .executed, .openTry,
        .opened, .fileClosed, .curClose, .connClose], true, false, none⟩
  else
    ⟨[.connectTry, .connected, .cursorCreated, .executeTry, .executed, .openTry,
        .opened, .fileClosed, .curClose, .connClose], true, true,
      some (csvContent w.fieldnames w.rows)⟩

/-- All four I/O operations of the stage succeed. -/
def dbOk (w : DbWorld) : Bool := w.connectOk && w.executeOk && w.openOk && w.writeOk

/-! The orchestrator (`main`, src/db.py lines 84-187) -/

/-- Response of the remote store to one MKCOL request: an HTTP status, or
a transport exception raised by `requests.request`. -/
inductive MkResp where
  | status (n : Nat)
  | exc
deriving DecidableEq

/-- Observable events of a `main` run, in order.  `errTokenMissing`,
`errConnParams`, `uploadErr` and `removeWarn` are printed to stderr; the
query/upload echoes, the MKCOL warnings and the success message go to
stdout; `dbQuery`, `mkcol` and `put` record the store / network calls. -/
inductive Ev where
  | errTokenMissing
  | errConnParams
  | queryEcho (path : Str)
  | dbQuery
  | mkcol (url : Str)
  | mkcolWarnStatus (url : Str) (code : Nat)
  | mkcolWarnExc (url : Str)
  | uploadEcho (path : Str) (url : Str)
  | put (url : Str)
  | okPrint (name : Str)
  | uploadErr (status : Nat) (body : Str)
  | removeTry (path : Str)
  | removeWarn (path : Str)
deriving DecidableEq

inductive ExitStatus where
  | code (n : Nat)
  | raised
deriving DecidableEq

structure MainRes where
  events : List Ev
  exit : ExitStatus
  artifactPresent : Bool
deriving DecidableEq

/-- Command-line arguments and environment, after `argparse` applied its
defaults (src/db.py lines 85-101): each optional value is `none` when
neither the flag nor its environment fallback is set.  `genName` stands
for the timestamp-generated remote filename of line 124. -/
structure Args where
  yadToken : Option Str
  pgUser : Option Str
  pgPassword : Option Str
  pgDatabase : Option Str
  yandexLogin : Option Str
  remoteDir : Str
  remoteName : Option Str
  localTemp : Option Str
  genName : Str

/-- External behaviour the run depends on: the `mkstemp` path, whether a
caller-supplied `--local-temp` path already exists, the database stage
scenario, the store's answer to the i-th MKCOL request, whether
`requests.put` itself raises, the upload response, and whether
`os.remove` succeeds. -/
structure World where
  tmpName : Str
  localTempPre : Bool
  db : DbWorld
  mkcolResp : Nat → MkResp
  putOk : Bool
  uploadStatus : Nat
  uploadBody : Str
  removeOk : Bool

def webdavBase : Str := "https://webdav.yandex.ru".toList

/-- Classification of one MKCOL response (src/db.py lines 159-168):
201/405 pass silently, 409 passes silently, any other 2xx passes
silently, any other status prints a warning; a transport exception is
caught and prints a warning. -/
def mkcolClassify (url : Str) (r : MkResp) : List Ev :=
  match r with
  | .exc => [.mkcolWarnExc url]
  | .status n =>
    if n = 201 ∨ n = 405 then []
    else if n = 409 then []
    else if 200 ≤ n ∧ n < 300 then []
    else [.mkcolWarnStatus url n]

/-- The MKCOL loop (src/db.py lines 151-168): one request per accumulated
prefix URL, in order, each followed by its response classification; no
response never stops the loop. -/
def mkcolLoop (resp : Nat → MkResp) (i : Nat) : List Str → List Ev
  | [] => []
  | u :: us => .mkcol u :: (mkcolClassify u (resp i) ++ mkcolLoop resp (i + 1) us)

/-- The MKCOL request URLs for a (already stripped) remote directory. -/
def remoteUrls (rdir : Str) : List Str :=
  (accumParts [] (pySplit '/' rdir)).map (fun a => webdavBase ++ '/' :: a)

/-- `remote_file_url` (src/db.py lines 144-145). -/
def fileUrl (rdir : Str) (name : Str) : Str :=
  (webdavBase ++ '/' :: rdir) ++ '/' :: name

/-- The cleanup `finally` block (src/db.py lines 178-184): if the local
path exists it is removed; a removal error is caught and prints a warning
to stderr.  Returns the emitted events and whether the file still exists
afterwards. -/
def cleanupPhase (path : Str) (present : Bool) (ok : Bool) : List Ev × Bool :=
  if present then
    if ok then ([.removeTry path], false)
    else ([.removeTry path, .removeWarn path], true)
  else ([], false)

/-- Embedding of `main`.  Preflight: missing `YANDEX_DISK_TOKEN` exits 1
(lines 104-107); missing `pg_user`/`pg_database` exits 1 (lines 117-120),
both before the `try` block, so no cleanup and no store or network call
happens.  Inside `try`: run the query stage (an error propagates after
cleanup, `.raised`), strip and split the remote dir, run the MKCOL loop,
upload; a 2xx response prints success and exits 0, anything else prints
status and body to stderr and exits 2 (lines 170-176).  The `finally`
block always removes the local file if it exists. -/
def mainRun (a : Args) (w : World) : MainRes :=
  if pyFalsy a.yadToken then
    ⟨[.errTokenMissing], .code 1, pyTruthy a.localTemp && w.localTempPre⟩
  else if pyFalsy a.pgUser || pyFalsy a.pgDatabase then
    ⟨[.errConnParams], .code 1, pyTruthy a.localTemp && w.localTempPre⟩
  else
    let remoteFilename := pyOr a.remoteName a.genName
    let localPath := if pyTruthy a.localTemp then pyGet a.localTemp else w.tmpName
    let created := if pyTruthy a.localTemp then w.localTempPre else true
    let dbRes := run_query_and_write_csv w.db
    let present := created || dbRes.opened
    let clean := cleanupPhase localPath present w.removeOk
    if dbRes.ok = false then
      ⟨.queryEcho localPath :: .dbQuery :: clean.1, .raised, clean.2⟩
    else
      let rdir := pyStrip '/' a.remoteDir
      let fUrl := fileUrl rdir remoteFilename
      let mkEvs := mkcolLoop w.mkcolResp 0 (remoteUrls rdir)
      let hd := .queryEcho localPath :: .dbQuery :: mkEvs ++ [.uploadEcho localPath fUrl, .put fUrl]
      if w.putOk = false then
        ⟨hd ++ clean.1, .raised, clean.2⟩
      else if 200 ≤ w.uploadStatus ∧ w.uploadStatus < 300 then
        ⟨hd ++ .okPrint remoteFilename :: clean.1, .code 0, clean.2⟩
      else
        ⟨hd ++ .uploadErr w.uploadStatus w.uploadBody :: clean.1, .code 2, clean.2⟩

/-- The MKCOL request URLs actually issued during a run, in order. -/
def mkcolUrls (evs : List Ev) : List Str :=
  evs.filterMap (fun e => match e with | .mkcol u => some u | _ => none)

/-- Is the event one of the two MKCOL warning prints? -/
def isMkcolWarn : Ev → Bool
  | .mkcolWarnStatus _ _ => true
  | .mkcolWarnExc _ => true
  | _ => false

/-- Copy of a `World` with a different MKCOL response assignment. -/
def withResp (w : World) (r : Nat → MkResp) : World :=
  ⟨w.tmpName, w.localTempPre, w.db, r, w.putOk, w.uploadStatus, w.uploadBody, w.removeOk⟩

/-- Copy of a `World` with a different `os.remove` outcome. -/
def withRemoveOk (w : World) (b : Bool) : World :=
  ⟨w.tmpName, w.localTempPre, w.db, w.mkcolResp, w.putOk, w.uploadStatus, w.uploadBody, b⟩

/-- Copy of `Args` with a different remote directory. -/
def withDir (a : Args) (d : Str) : Args :=
  ⟨a.yadToken, a.pgUser, a.pgPassword, a.pgDatabase, a.yandexLogin, d,
    a.remoteName, a.localTemp, a.genName⟩

/-! Lemmas about the embedded Python string operations -/

theorem dropLead_cons_self (c : Char) (s : Str) : dropLead c (c :: s) = dropLead c s := by
  simp [dropLead, List.dropWhile_cons]

theorem dropLead_head_ne (c : Char) (s : Str) :
    ∀ x xs, dropLead c s = x :: xs → x ≠ c := by
  induction s with
  | nil => intro x xs h; simp [dropLead] at h
  | cons y ys ih =>
    intro x xs h
    by_cases hy : y = c
    · subst hy; rw [dropLead_cons_self] at h; exact ih x xs h
    · simp [dropLead, List.dropWhile_cons, hy] at h
      exact h.1 ▸ hy

theorem pyStrip_cons_self (c : Char) (s : Str) : pyStrip c (c :: s) = pyStrip c s := by
  simp [pyStrip, dropLead_cons_self]

theorem dropLead_append_singleton (c : Char) (s : Str) :
    dropLead c (s ++ [c]) =
      if (dropLead c s).isEmpty then [] else dropLead c s ++ [c] := by
  simp only [dropLead, List.dropWhile_append]
  split
  · simp [List.dropWhile_cons]
  · rfl

theorem pyStrip_append_self (c : Char) (s : Str) : pyStrip c (s ++ [c]) = pyStrip c s := by
  unfold pyStrip
  by_cases h : (dropLead c s).isEmpty
  · have he : dropLead c s = [] := List.isEmpty_iff.mp h
    rw [dropLead_append_singleton, if_pos h, he]
  · rw [dropLead_append_singleton, if_neg h, List.reverse_append]
    simp [dropLead_cons_self]

theorem dropLead_getLast? (c : Char) (t : Str) :
    dropLead c t = [] ∨ (dropLead c t).getLast? = t.getLast? := by
  induction t with
  | nil => left; rfl
  | cons y ys ih =>
    by_cases hy : y = c
    · subst hy
      rw [dropLead_cons_self]
      rcases ih with h | h
      · left; exact h
      · cases hys : ys with
        | nil => left; simp [dropLead]
        | cons z zs =>
          right
          rw [hys] at h
          rw [h]
          simp
    · right; simp [dropLead, List.dropWhile_cons, hy]

theorem pyStrip_head_ne (c : Char) (s : Str) : (pyStrip c s).head? ≠ some c := by
  unfold pyStrip
  intro h
  rw [List.head?_reverse] at h
  rcases dropLead_getLast? c (dropLead c s).reverse with h2 | h2
  · rw [h2] at h; simp at h
  · rw [h2, List.getLast?_reverse] at h
    cases hh : (dropLead c s) with
    | nil => rw [hh] at h; simp at h
    | cons x xs =>
      rw [hh] at h
      simp at h
      exact dropLead_head_ne c s x xs hh h

theorem pyStrip_getLast_ne (c : Char) (s : Str) : (pyStrip c s).getLast? ≠ some c := by
  unfold pyStrip
  intro h
  rw [List.getLast?_reverse] at h
  cases hh : dropLead c (dropLead c s).reverse with
  | nil => rw [hh] at h; simp at h
  | cons x xs =>
    rw [hh] at h
    simp at h
    exact dropLead_head_ne c (dropLead c s).reverse x xs hh h

theorem pySplit_ne_nil (c : Char) (s : Str) : pySplit c s ≠ [] := by
  cases s with
  | nil => simp [pySplit]
  | cons x xs =>
    simp only [pySplit]
    split
    · simp
    · split <;> simp

theorem pySplit_head_nonempty (c : Char) (x : Char) (xs : Str) (hx : x ≠ c) :
    (pySplit c (x :: xs)).head? ≠ some [] := by
  simp only [pySplit, if_neg hx]
  split <;> simp

theorem pySplit_cons (c x : Char) (xs : Str) :
    pySplit c (x :: xs) = if x = c then [] :: pySplit c xs
      else match pySplit c xs with | [] => [[x]] | y :: ys => (x :: y) :: ys := by
  simp only [pySplit]

theorem pySplit_getLast_nonempty (c : Char) :
    ∀ s : Str, s ≠ [] → s.getLast? ≠ some c → (pySplit c s).getLast? ≠ some [] := by
  intro s
  induction s with
  | nil => intro h; exact absurd rfl h
  | cons x xs ih =>
    intro _ hlast
    by_cases hxs : xs = []
    · subst hxs
      have hx : x ≠ c := by simpa using hlast
      simp [pySplit, hx]
    · obtain ⟨z, zs, rfl⟩ := List.exists_cons_of_ne_nil hxs
      have hlast2 : (z :: zs).getLast? ≠ some c := by simpa using hlast
      have htail := ih (by simp) hlast2
      cases hsp : pySplit c (z :: zs) with
      | nil => exact absurd hsp (pySplit_ne_nil c _)
      | cons y ys =>
        rw [hsp] at htail
        by_cases hx : x = c
        · rw [pySplit_cons, if_pos hx, hsp]
          simpa using htail
        · rw [pySplit_cons, if_neg hx, hsp]
          cases ys with
          | nil => simp
          | cons y2 ys2 => simpa using htail

theorem accumParts_length (l : List Str) : ∀ accum, (accumParts accum l).length = l.length := by
  induction l with
  | nil => intro accum; rfl
  | cons p ps ih => intro accum; simp [accumParts, ih]

/-! Lemmas about the MKCOL loop and the stage results -/

theorem mkcolClassify_warn (u : Str) (r : MkResp) :
    ∀ e ∈ mkcolClassify u r, isMkcolWarn e = true := by
  intro e he
  cases r with
  | exc => simp [mkcolClassify] at he; subst he; rfl
  | status n =>
    simp only [mkcolClassify] at he
    split at he
    · simp at he
    · split at he
      · simp at he
      · split at he
        · simp at he
        · simp at he; subst he; rfl

theorem mkcolUrls_classify (u : Str) (r : MkResp) : mkcolUrls (mkcolClassify u r) = [] := by
  cases r with
  | exc => rfl
  | status n =>
    simp only [mkcolClassify]
    split
    · rfl
    · split
      · rfl
      · split <;> rfl

theorem mkcolUrls_loop (resp : Nat → MkResp) :
    ∀ (urls : List Str) (i : Nat), mkcolUrls (mkcolLoop resp i urls) = urls := by
  intro urls
  induction urls with
  | nil => intro i; rfl
  | cons u us ih =>
    intro i
    simp only [mkcolLoop, mkcolUrls, List.filterMap_cons, List.filterMap_append]
    rw [show (mkcolClassify u (resp i)).filterMap
          (fun e => match e with | .mkcol u => some u | _ => none) = mkcolUrls (mkcolClassify u (resp i)) from rfl]
    rw [mkcolUrls_classify]
    exact congrArg (u :: ·) (ih (i + 1))

theorem removeTry_not_in_loop (resp : Nat → MkResp) (p : Str) :
    ∀ (urls : List Str) (i : Nat), Ev.removeTry p ∉ mkcolLoop resp i urls := by
  intro urls
  induction urls with
  | nil => intro i; simp [mkcolLoop]
  | cons u us ih =>
    intro i
    simp only [mkcolLoop, List.mem_cons, List.mem_append]
    push_neg
    refine ⟨by simp, fun hmem => ?_, ih (i + 1)⟩
    have := mkcolClassify_warn u (resp i) _ hmem
    simp [isMkcolWarn] at this

theorem run_ok_of_dbOk (d : DbWorld) (h : dbOk d = true) :
    (run_query_and_write_csv d).ok = true ∧ (run_query_and_write_csv d).opened = true := by
  unfold dbOk at h
  simp only [Bool.and_eq_true] at h
  obtain ⟨⟨⟨h1, h2⟩, h3⟩, h4⟩ := h
  simp [run_query_and_write_csv, h1, h2, h3, h4]

theorem run_content_eq (d : DbWorld) (c : Str)
    (h : (run_query_and_write_csv d).content = some c) :
    c = csvContent d.fieldnames d.rows := by
  unfold run_query_and_write_csv at h
  split at h
  · simp at h
  · split at h
    · simp at h
    · split at h
      · simp at h
      · split at h
        · simp at h
        · simp at h; exact h.symm

/-! Claim theorems about the orchestrator -/

/-- C3: if the remote-store credential (`YANDEX_DISK_TOKEN`) is missing
(or empty), or the mandatory `pg_user` / `pg_database` is missing (or
empty), `main` exits with the dedicated precondition-failure code 1
before attempting any database connection or network call: the run
contains no query-stage call, no MKCOL request and no PUT request. -/
theorem preflight_exit_precedes_work (a : Args) (w : World)
    (h : pyFalsy a.yadToken = true ∨ pyFalsy a.pgUser = true ∨ pyFalsy a.pgDatabase = true) :
    (mainRun a w).exit = .code 1 ∧
    Ev.dbQuery ∉ (mainRun a w).events ∧
    (∀ u, Ev.mkcol u ∉ (mainRun a w).events) ∧
    (∀ u, Ev.put u ∉ (mainRun a w).events) := by
  by_cases htok : pyFalsy a.yadToken = true
  · simp [mainRun, htok]
  · rcases h with h | h | h
    · exact absurd h htok
    · simp [mainRun, htok, h]
    · simp [mainRun, htok, h]

/-- C3 witness: with an unset token the run exits 1 with no I/O. -/
theorem preflight_exit_precedes_work_witness :
    pyFalsy (none : Option Str) = true ∧
    (mainRun ⟨none, some ("u".toList), none, some ("d".toList), none, "Backups".toList,
        none, none, "g.csv".toList⟩
      ⟨"t.csv".toList, false, ⟨true, true, true, true, [], []⟩, fun _ => .status 201,
        true, 201, [], true⟩).exit = .code 1 :=
  ⟨by decide,
    (preflight_exit_precedes_work _ _ (Or.inl (by decide))).1⟩

theorem mkcolUrls_cons_queryEcho (p : Str) (l : List Ev) :
    mkcolUrls (.queryEcho p :: l) = mkcolUrls l := rfl

theorem mkcolUrls_cons_dbQuery (l : List Ev) :
    mkcolUrls (.dbQuery :: l) = mkcolUrls l := rfl

theorem mkcolUrls_cons_uploadEcho (p u : Str) (l : List Ev) :
    mkcolUrls (.uploadEcho p u :: l) = mkcolUrls l := rfl

theorem mkcolUrls_cons_put (u : Str) (l : List Ev) :
    mkcolUrls (.put u :: l) = mkcolUrls l := rfl

theorem mkcolUrls_cons_okPrint (n : Str) (l : List Ev) :
    mkcolUrls (.okPrint n :: l) = mkcolUrls l := rfl

theorem mkcolUrls_cons_uploadErr (s : Nat) (b : Str) (l : List Ev) :
    mkcolUrls (.uploadErr s b :: l) = mkcolUrls l := rfl

theorem mkcolUrls_append (l1 l2 : List Ev) :
    mkcolUrls (l1 ++ l2) = mkcolUrls l1 ++ mkcolUrls l2 :=
  List.filterMap_append _ _ _

theorem mkcolUrls_cleanup (p : Str) (pr ok : Bool) :
    mkcolUrls (cleanupPhase p pr ok).1 = [] := by
  unfold cleanupPhase
  split_ifs <;> rfl

/-- C2: with the preconditions satisfied, the query stage successful and
the PUT transfer performed, `main` exits 0 and prints the success message
iff the upload response status is 2xx; on any non-2xx status it prints
the status and response body to stderr and exits with the dedicated
upload-failure code 2, which is distinct from the precondition-failure
code 1. -/
theorem upload_status_determines_exit (a : Args) (w : World)
    (h1 : pyFalsy a.yadToken = false) (h2 : pyFalsy a.pgUser = false)
    (h3 : pyFalsy a.pgDatabase = false) (hdb : dbOk w.db = true) (hput : w.putOk = true) :
    (((mainRun a w).exit = .code 0) ↔ (200 ≤ w.uploadStatus ∧ w.uploadStatus < 300)) ∧
    ((200 ≤ w.uploadStatus ∧ w.uploadStatus < 300) →
      Ev.okPrint (pyOr a.remoteName a.genName) ∈ (mainRun a w).events) ∧
    (¬(200 ≤ w.uploadStatus ∧ w.uploadStatus < 300) →
      (mainRun a w).exit = .code 2 ∧
      Ev.uploadErr w.uploadStatus w.uploadBody ∈ (mainRun a w).events) ∧
    ExitStatus.code 2 ≠ ExitStatus.code 1 := by
  have hok := (run_ok_of_dbOk w.db hdb).1
  by_cases hs : 200 ≤ w.uploadStatus ∧ w.uploadStatus < 300
  · simp [mainRun, h1, h2, h3, hok, hput, hs]
  · simp [mainRun, h1, h2, h3, hok, hput, hs]

def okDb : DbWorld := ⟨true, true, true, true, [['a']], [[['1']]]⟩

def okArgs : Args :=
  ⟨some ['t'], some ['u'], none, some ['d'], none, "a/b/c".toList,
    some "f.csv".toList, none, "g.csv".toList⟩

def okWorld : World :=
  ⟨"tmp.csv".toList, false, okDb, fun _ => .status 409, true, 201, [], true⟩

/-- C2 witness: a 201 upload response yields exit code 0. -/
theorem upload_status_determines_exit_witness :
    dbOk okWorld.db = true ∧ (200 ≤ okWorld.uploadStatus ∧ okWorld.uploadStatus < 300) ∧
    (mainRun okArgs okWorld).exit = .code 0 :=
  ⟨by decide, by decide,
    ((upload_status_determines_exit okArgs okWorld (by decide) (by decide) (by decide)
      (by decide) (by decide)).1).mpr (by decide)⟩

/-- C1: once the pipeline reaches the directory-materialization step, the
MKCOL requests issued are exactly one per accumulated left-to-right
prefix of the stripped remote directory path, in order, and their number
equals the number of path segments.  The statement holds for every
response assignment `w.mkcolResp` — in particular a 409 or 405 response
(or even a transport exception) to any request never prevents the
remaining requests from being attempted. -/
theorem mkcol_requests_per_segment (a : Args) (w : World)
    (h1 : pyFalsy a.yadToken = false) (h2 : pyFalsy a.pgUser = false)
    (h3 : pyFalsy a.pgDatabase = false) (hdb : dbOk w.db = true) :
    mkcolUrls (mainRun a w).events =
      (accumParts [] (pySplit '/' (pyStrip '/' a.remoteDir))).map
        (fun acc => webdavBase ++ '/' :: acc) ∧
    (mkcolUrls (mainRun a w).events).length =
      (pySplit '/' (pyStrip '/' a.remoteDir)).length := by
  have hok := (run_ok_of_dbOk w.db hdb).1
  have hbase : mkcolUrls (mainRun a w).events = remoteUrls (pyStrip '/' a.remoteDir) := by
    by_cases hput : w.putOk = true
    · by_cases hs : 200 ≤ w.uploadStatus ∧ w.uploadStatus < 300
      · simp [mainRun, h1, h2, h3, hok, hput, hs, mkcolUrls_cons_queryEcho,
          mkcolUrls_cons_dbQuery, mkcolUrls_cons_uploadEcho, mkcolUrls_cons_put,
          mkcolUrls_cons_okPrint, mkcolUrls_cons_uploadErr, mkcolUrls_append,
          mkcolUrls_loop, mkcolUrls_cleanup]
      · simp [mainRun, h1, h2, h3, hok, hput, hs, mkcolUrls_cons_queryEcho,
          mkcolUrls_cons_dbQuery, mkcolUrls_cons_uploadEcho, mkcolUrls_cons_put,
          mkcolUrls_cons_okPrint, mkcolUrls_cons_uploadErr, mkcolUrls_append,
          mkcolUrls_loop, mkcolUrls_cleanup]
    · have hput2 : w.putOk = false := by simpa using hput
      simp [mainRun, h1, h2, h3, hok, hput2, mkcolUrls_cons_queryEcho,
        mkcolUrls_cons_dbQuery, mkcolUrls_cons_uploadEcho, mkcolUrls_cons_put,
        mkcolUrls_cons_okPrint, mkcolUrls_cons_uploadErr, mkcolUrls_append,
        mkcolUrls_loop, mkcolUrls_cleanup]
  refine ⟨by rw [hbase]; rfl, ?_⟩
  rw [hbase]
  unfold remoteUrls
  rw [List.length_map, accumParts_length]

/-- C1 witness: for remote dir `"a/b/c"` with every response 409, exactly
the three prefix URLs are requested, in order. -/
theorem mkcol_requests_per_segment_witness :
    dbOk okWorld.db = true ∧
    mkcolUrls (mainRun okArgs okWorld).events =
      (accumParts [] (pySplit '/' (pyStrip '/' okArgs.remoteDir))).map
        (fun acc => webdavBase ++ '/' :: acc) ∧
    mkcolUrls (mainRun okArgs okWorld).events =
      ["https://webdav.yandex.ru/a".toList, "https://webdav.yandex.ru/a/b".toList,
        "https://webdav.yandex.ru/a/b/c".toList] :=
  ⟨by decide,
    (mkcol_requests_per_segment okArgs okWorld (by decide) (by decide) (by decide)
      (by decide)).1,
    by decide⟩

/-- C9: the process exit status never depends on whether the cleanup
`os.remove` succeeds, and whenever a removal is attempted and fails the
corresponding warning is printed (to stderr) instead of escalating. -/
theorem cleanup_failure_not_escalated (a : Args) (w : World) (b : Bool) :
    (mainRun a (withRemoveOk w b)).exit = (mainRun a w).exit ∧
    (∀ p, Ev.removeTry p ∈ (mainRun a (withRemoveOk w false)).events →
          Ev.removeWarn p ∈ (mainRun a (withRemoveOk w false)).events) := by
  by_cases h1 : pyFalsy a.yadToken = true
  · exact ⟨by simp [mainRun, withRemoveOk, h1],
      fun p hp => by simp [mainRun, withRemoveOk, h1] at hp⟩
  by_cases hu : pyFalsy a.pgUser = true
  · exact ⟨by simp [mainRun, withRemoveOk, h1, hu],
      fun p hp => by simp [mainRun, withRemoveOk, h1, hu] at hp⟩
  by_cases hd : pyFalsy a.pgDatabase = true
  · exact ⟨by simp [mainRun, withRemoveOk, h1, hu, hd],
      fun p hp => by simp [mainRun, withRemoveOk, h1, hu, hd] at hp⟩
  have hpres : ∀ p,
      Ev.removeTry p ∈ (mainRun a (withRemoveOk w false)).events →
      Ev.removeWarn p ∈ (mainRun a (withRemoveOk w false)).events := by
    intro p hp
    by_cases hc : ((pyTruthy a.localTemp = false ∨ w.localTempPre = true) ∨
        (run_query_and_write_csv w.db).opened = true)
    · by_cases hdb : (run_query_and_write_csv w.db).ok = true
      · by_cases hput : w.putOk = true
        · by_cases hs : 200 ≤ w.uploadStatus ∧ w.uploadStatus < 300
          · simp [mainRun, withRemoveOk, h1, hu, hd, hdb, hput, hs, cleanupPhase, hc,
              removeTry_not_in_loop] at hp
            simp [mainRun, withRemoveOk, h1, hu, hd, hdb, hput, hs, cleanupPhase, hc, hp]
          · simp [mainRun, withRemoveOk, h1, hu, hd, hdb, hput, hs, cleanupPhase, hc,
              removeTry_not_in_loop] at hp
            simp [mainRun, withRemoveOk, h1, hu, hd, hdb, hput, hs, cleanupPhase, hc, hp]
        · have hput2 : w.putOk = false := by simpa using hput
          simp [mainRun, withRemoveOk, h1, hu, hd, hdb, hput2, cleanupPhase, hc,
            removeTry_not_in_loop] at hp
          simp [mainRun, withRemoveOk, h1, hu, hd, hdb, hput2, cleanupPhase, hc, hp]
      · have hdb2 : (run_query_and_write_csv w.db).ok = false := by simpa using hdb
        simp [mainRun, withRemoveOk, h1, hu, hd, hdb2, cleanupPhase, hc] at hp
        simp [mainRun, withRemoveOk, h1, hu, hd, hdb2, cleanupPhase, hc, hp]
    · by_cases hdb : (run_query_and_write_csv w.db).ok = true
      · by_cases hput : w.putOk = true
        · by_cases hs : 200 ≤ w.uploadStatus ∧ w.uploadStatus < 300
          · simp [mainRun, withRemoveOk, h1, hu, hd, hdb, hput, hs, cleanupPhase, hc,
              removeTry_not_in_loop] at hp
          · simp [mainRun, withRemoveOk, h1, hu, hd, hdb, hput, hs, cleanupPhase, hc,
              removeTry_not_in_loop] at hp
        · have hput2 : w.putOk = false := by simpa using hput
          simp [mainRun, withRemoveOk, h1, hu, hd, hdb, hput2, cleanupPhase, hc,
            removeTry_not_in_loop] at hp
      · have hdb2 : (run_query_and_write_csv w.db).ok = false := by simpa using hdb
        simp [mainRun, withRemoveOk, h1, hu, hd, hdb2, cleanupPhase, hc] at hp
  refine ⟨?_, hpres⟩
  by_cases hdb : (run_query_and_write_csv w.db).ok = true
  · by_cases hput : w.putOk = true
    · by_cases hs : 200 ≤ w.uploadStatus ∧ w.uploadStatus < 300
      · simp [mainRun, withRemoveOk, h1, hu, hd, hdb, hput, hs]
      · simp [mainRun, withRemoveOk, h1, hu, hd, hdb, hput, hs]
    · have hput2 : w.putOk = false := by simpa using hput
      simp [mainRun, withRemoveOk, h1, hu, hd, hdb, hput2]
  · have hdb2 : (run_query_and_write_csv w.db).ok = false := by simpa using hdb
    simp [mainRun, withRemoveOk, h1, hu, hd, hdb2]

/-- C9 witness: with a failing `os.remove` on the success path the exit
code is still 0 and the cleanup warning is printed. -/
theorem cleanup_failure_not_escalated_witness :
    (mainRun okArgs (withRemoveOk okWorld false)).exit = (mainRun okArgs okWorld).exit ∧
    Ev.removeWarn ("tmp.csv".toList) ∈ (mainRun okArgs (withRemoveOk okWorld false)).events :=
  ⟨(cleanup_failure_not_escalated okArgs okWorld false).1,
    (cleanup_failure_not_escalated okArgs okWorld false).2 ("tmp.csv".toList) (by decide)⟩

def keepArgs : Args :=
  ⟨some ['t'], some ['u'], none, some ['d'], none, "B".toList,
    some "f.csv".toList, some "/home/u/keep.csv".toList, "g.csv".toList⟩

def keepWorld : World :=
  ⟨"tmp.csv".toList, true, okDb, fun _ => .status 201, true, 201, [], true⟩

/-- C6 counterexample: the caller supplied `--local-temp
/home/u/keep.csv` (a pre-existing file) and the run succeeds, yet the
cleanup block still removes the file — the `finally` block of `main`
(src/db.py lines 178-184) never consults `args.local_temp`, so a
caller-supplied path is deleted like any generated temp path. -/
theorem local_temp_still_deleted_cex :
    pyTruthy keepArgs.localTemp = true ∧
    keepWorld.localTempPre = true ∧
    keepWorld.removeOk = true ∧
    (mainRun keepArgs keepWorld).exit = .code 0 ∧
    Ev.removeTry ("/home/u/keep.csv".toList) ∈ (mainRun keepArgs keepWorld).events ∧
    (mainRun keepArgs keepWorld).artifactPresent = false := by decide

/-- C6 (amended): once the pipeline is entered (preconditions satisfied)
and `os.remove` succeeds, the local artifact file is absent after every
exit path — success, upload failure, and exception — regardless of
whether the caller supplied `--local-temp`; supplying a path only
changes the location, never the deletion. -/
theorem artifact_removed_every_path (a : Args) (w : World)
    (h1 : pyFalsy a.yadToken = false) (hu : pyFalsy a.pgUser = false)
    (hd : pyFalsy a.pgDatabase = false) (hrm : w.removeOk = true) :
    (mainRun a w).artifactPresent = false := by
  have hsnd : ∀ p pr, (cleanupPhase p pr true).2 = false := by
    intro p pr
    cases pr <;> simp [cleanupPhase]
  by_cases hdb : (run_query_and_write_csv w.db).ok = true
  · by_cases hput : w.putOk = true
    · by_cases hs : 200 ≤ w.uploadStatus ∧ w.uploadStatus < 300
      · simp [mainRun, h1, hu, hd, hdb, hput, hs, hrm, hsnd]
      · simp [mainRun, h1, hu, hd, hdb, hput, hs, hrm, hsnd]
    · have hput2 : w.putOk = false := by simpa using hput
      simp [mainRun, h1, hu, hd, hdb, hput2, hrm, hsnd]
  · have hdb2 : (run_query_and_write_csv w.db).ok = false := by simpa using hdb
    simp [mainRun, h1, hu, hd, hdb2, hrm, hsnd]

/-- C6 witness: the artifact is gone after a successful run. -/
theorem artifact_removed_every_path_witness :
    keepWorld.removeOk = true ∧ (mainRun keepArgs keepWorld).artifactPresent = false :=
  ⟨by decide,
    artifact_removed_every_path keepArgs keepWorld (by decide) (by decide) (by decide)
      (by decide)⟩

/-- C7 counterexample: every MKCOL request of the run is answered 409
(conflict); all three prefix requests are still issued, but the run
prints no MKCOL warning at all — the 409 arm of the loop (src/db.py
lines 161-163) is a bare `pass`, contradicting the claim that a 409 is
logged as a warning. -/
theorem conflict_silent_cex :
    okWorld.mkcolResp 0 = .status 409 ∧ okWorld.mkcolResp 1 = .status 409 ∧
    okWorld.mkcolResp 2 = .status 409 ∧
    (mkcolUrls (mainRun okArgs okWorld).events).length = 3 ∧
    (mainRun okArgs okWorld).events.countP isMkcolWarn = 0 := by decide

/-- C7 (amended): a 409 (conflict) response is tolerated silently — the
loop proceeds to the next segment without printing anything; any other
unsuccessful status (not 201, 405 or 409 and not 2xx) prints a warning
and the loop still proceeds; a transport exception during one segment's
request is caught there and reported as a warning; and neither response
statuses nor exceptions influence which MKCOL requests are issued or the
process exit status (nothing propagates out of the loop). -/
theorem mkcol_warning_policy (a : Args) (w : World) (url : Str) (n : Nat) :
    mkcolClassify url (.status 409) = [] ∧
    mkcolClassify url .exc = [.mkcolWarnExc url] ∧
    (n ≠ 201 → n ≠ 405 → n ≠ 409 → ¬(200 ≤ n ∧ n < 300) →
      mkcolClassify url (.status n) = [.mkcolWarnStatus url n]) ∧
    (∀ r, (mainRun a (withResp w r)).exit = (mainRun a w).exit ∧
          mkcolUrls (mainRun a (withResp w r)).events = mkcolUrls (mainRun a w).events) := by
  refine ⟨by simp [mkcolClassify], by simp [mkcolClassify], ?_, ?_⟩
  · intro hn1 hn2 hn3 hn4
    simp [mkcolClassify, hn1, hn2, hn3, hn4]
  · intro r
    by_cases h1 : pyFalsy a.yadToken = true
    · simp [mainRun, withResp, h1]
    by_cases hu : pyFalsy a.pgUser = true
    · simp [mainRun, withResp, h1, hu]
    by_cases hd : pyFalsy a.pgDatabase = true
    · simp [mainRun, withResp, h1, hu, hd]
    by_cases hdb : (run_query_and_write_csv w.db).ok = true
    · by_cases hput : w.putOk = true
      · by_cases hs : 200 ≤ w.uploadStatus ∧ w.uploadStatus < 300
        · simp [mainRun, withResp, h1, hu, hd, hdb, hput, hs, mkcolUrls_cons_queryEcho,
            mkcolUrls_cons_dbQuery, mkcolUrls_cons_uploadEcho, mkcolUrls_cons_put,
            mkcolUrls_cons_okPrint, mkcolUrls_cons_uploadErr, mkcolUrls_append,
            mkcolUrls_loop, mkcolUrls_cleanup]
        · simp [mainRun, withResp, h1, hu, hd, hdb, hput, hs, mkcolUrls_cons_queryEcho,
            mkcolUrls_cons_dbQuery, mkcolUrls_cons_uploadEcho, mkcolUrls_cons_put,
            mkcolUrls_cons_okPrint, mkcolUrls_cons_uploadErr, mkcolUrls_append,
            mkcolUrls_loop, mkcolUrls_cleanup]
      · have hput2 : w.putOk = false := by simpa using hput
        simp [mainRun, withResp, h1, hu, hd, hdb, hput2, mkcolUrls_cons_queryEcho,
          mkcolUrls_cons_dbQuery, mkcolUrls_cons_uploadEcho, mkcolUrls_cons_put,
          mkcolUrls_cons_okPrint, mkcolUrls_cons_uploadErr, mkcolUrls_append,
          mkcolUrls_loop, mkcolUrls_cleanup]
    · have hdb2 : (run_query_and_write_csv w.db).ok = false := by simpa using hdb
      simp [mainRun, withResp, h1, hu, hd, hdb2, mkcolUrls_cons_queryEcho,
        mkcolUrls_cons_dbQuery, mkcolUrls_append, mkcolUrls_cleanup]

/-- C7 witness: a 403 yields a status warning; a 409 yields nothing. -/
theorem mkcol_warning_policy_witness :
    mkcolClassify ("u".toList) (.status 403) = [.mkcolWarnStatus ("u".toList) 403] ∧
    mkcolClassify ("u".toList) (.status 409) = [] :=
  ⟨(mkcol_warning_policy okArgs okWorld ("u".toList) 403).2.2.1 (by decide) (by decide)
      (by decide) (by decide),
    (mkcol_warning_policy okArgs okWorld ("u".toList) 403).1⟩

theorem mainRun_dir_congr (a : Args) (w : World) (d₁ d₂ : Str)
    (h : pyStrip '/' d₁ = pyStrip '/' d₂) :
    mainRun (withDir a d₁) w = mainRun (withDir a d₂) w := by
  simp only [mainRun, withDir, h]

/-- C10: leading and trailing slashes of the remote-dir argument are
stripped before splitting, so a run with `"/" ++ d` or `d ++ "/"` is
indistinguishable (same events — hence the same MKCOL-request URLs and
final upload URL — same exit, same artifact state) from a run with `d`;
and after stripping, the first and last path segments are never the
empty string, so no container-creation request arises from a boundary
slash. -/
theorem remote_dir_slash_invariance (a : Args) (w : World) (d : Str) :
    mainRun (withDir a ('/' :: d)) w = mainRun (withDir a d) w ∧
    mainRun (withDir a (d ++ ['/'])) w = mainRun (withDir a d) w ∧
    (pyStrip '/' d ≠ [] →
      (pySplit '/' (pyStrip '/' d)).head? ≠ some [] ∧
      (pySplit '/' (pyStrip '/' d)).getLast? ≠ some []) := by
  refine ⟨mainRun_dir_congr a w _ _ (pyStrip_cons_self '/' d),
          mainRun_dir_congr a w _ _ (pyStrip_append_self '/' d), ?_⟩
  intro hne
  constructor
  · cases hh : pyStrip '/' d with
    | nil => exact absurd hh hne
    | cons x xs =>
      have hx : x ≠ '/' := by
        have hhead := pyStrip_head_ne '/' d
        rw [hh] at hhead
        simpa using hhead
      exact pySplit_head_nonempty '/' x xs hx
  · exact pySplit_getLast_nonempty '/' _ hne (pyStrip_getLast_ne '/' d)

/-- C10 witness: `"/a/b/c"` and `"a/b/c"` give identical runs, and the
stripped path has nonempty boundary segments. -/
theorem remote_dir_slash_invariance_witness :
    mainRun (withDir okArgs ('/' :: "a/b/c".toList)) okWorld =
      mainRun (withDir okArgs ("a/b/c".toList)) okWorld ∧
    pyStrip '/' ("a/b/c".toList) ≠ [] ∧
    (pySplit '/' (pyStrip '/' ("a/b/c".toList))).head? ≠ some [] :=
  ⟨(remote_dir_slash_invariance okArgs okWorld ("a/b/c".toList)).1, by decide,
    ((remote_dir_slash_invariance okArgs okWorld ("a/b/c".toList)).2.2 (by decide)).1⟩

/-- C8: whenever the database connection was acquired, the stage's trace
ends with the cursor-close attempt followed by the connection close —
after normal completion and after every failure inside the guarded
region (query execution, file open, row serialization); a failure of
`psycopg2.connect` itself acquires nothing.  The `finally` block is the
last thing the stage runs, so both releases happen before the stage
returns or its error propagates. -/
theorem streamer_releases_resources (d : DbWorld)
    (h : DbEv.connected ∈ (run_query_and_write_csv d).trace) :
    ∃ t, (run_query_and_write_csv d).trace = t ++ [DbEv.curClose, DbEv.connClose] := by
  obtain ⟨c, e, o, wr, fn, rws⟩ := d
  cases c with
  | false => simp [run_query_and_write_csv] at h
  | true =>
    cases e with
    | false =>
      exact ⟨[.connectTry, .connected, .cursorCreated, .executeTry], rfl⟩
    | true =>
      cases o with
      | false =>
        exact ⟨[.connectTry, .connected, .cursorCreated, .executeTry, .executed,
          .openTry], rfl⟩
      | true =>
        cases wr with
        | false =>
          exact ⟨[.connectTry, .connected, .cursorCreated, .executeTry, .executed,
            .openTry, .opened, .fileClosed], rfl⟩
        | true =>
          exact ⟨[.connectTry, .connected, .cursorCreated, .executeTry, .executed,
            .openTry, .opened, .fileClosed], rfl⟩

/-- C8 witness: on a failing `cur.execute` the cursor and connection are
still released, in that order, as the final actions of the stage. -/
theorem streamer_releases_resources_witness :
    DbEv.connected ∈ (run_query_and_write_csv ⟨true, false, true, true, [], []⟩).trace ∧
    ∃ t, (run_query_and_write_csv ⟨true, false, true, true, [], []⟩).trace =
      t ++ [DbEv.curClose, DbEv.connClose] :=
  ⟨by decide, streamer_releases_resources _ (by decide)⟩

/-! Round-trip lemmas for the CSV writer and reader -/

theorem csvStop_ne_quote (c : Char) (h : csvStop c = true) : c ≠ '"' := by
  simp only [csvStop, Bool.or_eq_true, decide_eq_true_eq] at h
  rcases h with (rfl | rfl) | rfl <;> decide

/-- The continuation after a serialized field is empty or starts with a
field/record delimiter. -/
def stopHead (r : Str) : Prop := ∀ c r', r = c :: r' → csvStop c = true

theorem stopHead_nil : stopHead [] := by
  intro c r' h
  cases h

theorem stopHead_cons (c : Char) (r : Str) (h : csvStop c = true) : stopHead (c :: r) := by
  intro c2 r2 he
  cases he
  exact h

theorem stopHead_comma (r : Str) : stopHead (',' :: r) :=
  stopHead_cons ',' r (by decide)

theorem stopHead_cr (r : Str) : stopHead ('\r' :: r) :=
  stopHead_cons '\r' r (by decide)

theorem stopHead_ne_quote (r : Str) (h : stopHead r) : r.head? ≠ some '"' := by
  cases r with
  | nil => simp
  | cons c r' =>
    simp only [List.head?_cons, ne_eq, Option.some.injEq]
    intro hc
    exact csvStop_ne_quote c (h c r' rfl) hc

theorem splitQuoted_escape (v : Str) : ∀ rest : Str, rest.head? ≠ some '"' →
    splitQuoted (csvEscape v ++ '"' :: rest) = (v, rest) := by
  induction v with
  | nil =>
    intro rest h
    cases rest with
    | nil => rw [splitQuoted.eq_def]; simp [csvEscape]
    | cons c2 r2 =>
      have hc2 : c2 ≠ '"' := by simpa using h
      rw [show csvEscape [] ++ '"' :: c2 :: r2 = '"' :: c2 :: r2 from rfl]
      rw [splitQuoted.eq_def]
      simp [hc2]
  | cons c v ih =>
    intro rest h
    by_cases hc : c = '"'
    · subst hc
      rw [show csvEscape ('"' :: v) ++ '"' :: rest =
            '"' :: '"' :: (csvEscape v ++ '"' :: rest) from by
        simp [csvEscape]]
      rw [splitQuoted.eq_def]
      simp [ih rest h]
    · rw [show csvEscape (c :: v) ++ '"' :: rest =
            c :: (csvEscape v ++ '"' :: rest) from by
        simp [csvEscape, hc]]
      rw [splitQuoted.eq_def]
      cases he : csvEscape v ++ '"' :: rest with
      | nil => simp at he
      | cons z zs =>
        rw [← he]
        simp [hc, ih rest h]

theorem csvSpecial_stop (c : Char) (h : csvSpecial c = false) : csvStop c = false := by
  simp only [csvSpecial, Bool.or_eq_false_iff] at h
  simp [csvStop, h.1.1.1, h.2, h.1.2]

theorem csvSpecial_ne_quote (c : Char) (h : csvSpecial c = false) : c ≠ '"' := by
  simp only [csvSpecial, Bool.or_eq_false_iff, decide_eq_false_iff_not] at h
  exact h.1.1.2

theorem splitUnquoted_clean (v : Str) : ∀ rest : Str, csvNeedsQuote v = false →
    stopHead rest → splitUnquoted (v ++ rest) = (v, rest) := by
  induction v with
  | nil =>
    intro rest _ hr
    cases rest with
    | nil => rfl
    | cons c r' =>
      rw [List.nil_append, splitUnquoted.eq_def]
      simp [hr c r' rfl]
  | cons c v ih =>
    intro rest hq hr
    simp only [csvNeedsQuote, List.any_cons, Bool.or_eq_false_iff] at hq
    have hstop : csvStop c = false := csvSpecial_stop c hq.1
    rw [List.cons_append, splitUnquoted.eq_def]
    simp only [hstop, Bool.false_eq_true, if_false]
    rw [ih rest hq.2 hr]

theorem readField_clean (v : Str) (rest : Str) (hr : stopHead rest) :
    readField (csvField v ++ rest) = (v, rest) := by
  by_cases hq : csvNeedsQuote v = true
  · rw [show csvField v ++ rest = '"' :: (csvEscape v ++ '"' :: rest) from by
      simp [csvField, hq]]
    rw [readField.eq_def]
    simp [splitQuoted_escape v rest (stopHead_ne_quote rest hr)]
  · have hq2 : csvNeedsQuote v = false := by simpa using hq
    rw [show csvField v = v from by simp [csvField, hq2]]
    cases v with
    | nil =>
      cases rest with
      | nil => rfl
      | cons c r' =>
        have hc : csvStop c = true := hr c r' rfl
        rw [List.nil_append, readField.eq_def]
        simp only [csvStop_ne_quote c hc, if_false, Bool.false_eq_true]
        rw [splitUnquoted.eq_def]
        simp [hc]
    | cons x v' =>
      have hx : csvSpecial x = false := by
        simp only [csvNeedsQuote, List.any_cons, Bool.or_eq_false_iff] at hq2
        exact hq2.1
      rw [List.cons_append, readField.eq_def]
      simp only [csvSpecial_ne_quote x hx, if_false, Bool.false_eq_true]
      rw [← List.cons_append]
      exact splitUnquoted_clean (x :: v') rest (by simpa using hq2) hr

theorem readRecord_join (fs : List Str) : ∀ (fuel : Nat) (rest : Str), fs ≠ [] →
    fs.length ≤ fuel →
    readRecord fuel (joinComma (fs.map csvField) ++ '\r' :: '\n' :: rest) = (fs, rest) := by
  induction fs with
  | nil => intro fuel rest h; exact absurd rfl h
  | cons f fs ih =>
    intro fuel rest _ hlen
    cases fuel with
    | zero => simp at hlen
    | succ fuel =>
      cases fs with
      | nil =>
        rw [show joinComma (List.map csvField [f]) = csvField f from rfl]
        rw [readRecord.eq_def]
        simp only [readField_clean f ('\r' :: '\n' :: rest) (stopHead_cr _)]
        simp
      | cons g gs =>
        rw [show joinComma (List.map csvField (f :: g :: gs)) ++ '\r' :: '\n' :: rest
              = csvField f ++
                (',' :: (joinComma (List.map csvField (g :: gs)) ++ '\r' :: '\n' :: rest)) from by
          simp [joinComma]]
        rw [readRecord.eq_def]
        simp only [readField_clean f
          (',' :: (joinComma (List.map csvField (g :: gs)) ++ '\r' :: '\n' :: rest))
          (stopHead_comma _)]
        simp only [ih fuel rest (by simp) (by simpa using hlen)]
        simp

theorem readRecord_rec (fs : List Str) (fuel : Nat) (rest : Str) (hne : fs ≠ [])
    (hlen : fs.length ≤ fuel) :
    readRecord fuel (csvRecord fs ++ rest) = (fs, rest) := by
  by_cases hq : fs = [([] : Str)]
  · subst hq
    cases fuel with
    | zero => simp at hlen
    | succ fuel =>
      rw [show csvRecord [([] : Str)] ++ rest = '"' :: '"' :: '\r' :: '\n' :: rest from by
        simp [csvRecord]]
      have h1 : readField ('"' :: '"' :: '\r' :: '\n' :: rest) = ([], '\r' :: '\n' :: rest) := by
        rw [readField.eq_def]
        simp only [if_pos rfl]
        rw [splitQuoted.eq_def]
        simp
      rw [readRecord.eq_def]
      simp only [h1]
      simp
  · rw [show csvRecord fs ++ rest = joinComma (fs.map csvField) ++ '\r' :: '\n' :: rest from by
      simp [csvRecord, hq, List.append_assoc]]
    exact readRecord_join fs fuel rest hne hlen

theorem joinComma_length (l : List Str) : l.length ≤ (joinComma l).length + 1 := by
  induction l with
  | nil => simp
  | cons f fs ih =>
    cases fs with
    | nil => simp [joinComma]
    | cons g gs =>
      rw [show joinComma (f :: g :: gs) = f ++ ',' :: joinComma (g :: gs) from rfl]
      simp only [List.length_cons, List.length_append] at ih ⊢
      omega

theorem csvRecord_length (fs : List Str) : fs.length ≤ (csvRecord fs).length := by
  unfold csvRecord
  split
  · simp_all
  · have h := joinComma_length (fs.map csvField)
    simp only [List.length_map] at h
    simp only [List.length_append, List.length_cons, List.length_nil]
    omega

theorem csvRecord_ne_nil (fs : List Str) : csvRecord fs ≠ [] := by
  unfold csvRecord
  split <;> simp

theorem csvRecord_length_pos (fs : List Str) : 1 ≤ (csvRecord fs).length := by
  unfold csvRecord
  split <;> simp

theorem records_length_le (recs : List (List Str)) :
    recs.length ≤ ((recs.map csvRecord).flatten).length := by
  induction recs with
  | nil => simp
  | cons r rs ih =>
    simp only [List.map_cons, List.flatten_cons, List.length_append, List.length_cons]
    have h1 := csvRecord_length_pos r
    omega

theorem readCsv_flatten (recs : List (List Str)) : ∀ fuel : Nat, (∀ r ∈ recs, r ≠ []) →
    recs.length < fuel →
    readCsv fuel ((recs.map csvRecord).flatten) = recs := by
  induction recs with
  | nil =>
    intro fuel _ hf
    cases fuel with
    | zero => omega
    | succ fuel => rw [readCsv.eq_def]; simp
  | cons r rs ih =>
    intro fuel hne hf
    cases fuel with
    | zero => omega
    | succ fuel =>
      have hrne : r ≠ [] := hne r (by simp)
      rw [show ((r :: rs).map csvRecord).flatten
            = csvRecord r ++ (rs.map csvRecord).flatten from by simp]
      obtain ⟨c, t, hct⟩ : ∃ c t, csvRecord r ++ (rs.map csvRecord).flatten = c :: t := by
        cases hcr : csvRecord r with
        | nil => exact absurd hcr (csvRecord_ne_nil r)
        | cons c u => exact ⟨c, u ++ (rs.map csvRecord).flatten, by simp [hcr]⟩
      have hrec : readRecord ((c :: t).length + 1) (c :: t)
          = (r, (rs.map csvRecord).flatten) := by
        rw [← hct]
        apply readRecord_rec r _ _ hrne
        have h1 := csvRecord_length r
        have h2 : (csvRecord r).length ≤ (csvRecord r ++ (rs.map csvRecord).flatten).length := by
          simp
        omega
      have hstep : readCsv (Nat.succ fuel) (c :: t)
          = (readRecord ((c :: t).length + 1) (c :: t)).1
            :: readCsv fuel (readRecord ((c :: t).length + 1) (c :: t)).2 := rfl
      rw [hct, hstep, hrec]
      exact congrArg (r :: ·) (ih fuel (fun x hx => hne x (by simp [hx])) (by simpa using hf))

/-- Serialize-then-parse is the identity on the whole table. -/
theorem csv_roundtrip_core (header : List Str) (rows : List (List Str))
    (hh : header ≠ []) (hr : ∀ r ∈ rows, r ≠ []) :
    parseCsv (csvContent header rows) = header :: rows := by
  rw [show csvContent header rows = (((header :: rows).map csvRecord).flatten) from by
    simp [csvContent]]
  unfold parseCsv
  apply readCsv_flatten
  · intro r hrm
    rcases List.mem_cons.mp hrm with rfl | hm
    · exact hh
    · exact hr r hm
  · have h := records_length_le (header :: rows)
    simp only [List.length_cons] at h ⊢
    omega

theorem count_csvEscape (v : Str) (c : Char) (hc : c ≠ '"') :
    (csvEscape v).count c = v.count c := by
  induction v with
  | nil => rfl
  | cons x xs ih =>
    by_cases hx : x = '"'
    · subst hx
      simp [csvEscape, List.count_cons, ih, hc]
    · simp [csvEscape, hx, List.count_cons, ih]

theorem count_csvField (v : Str) (hv : ('\n' : Char) ∉ v) : (csvField v).count '\n' = 0 := by
  have hcv : v.count '\n' = 0 := List.count_eq_zero.mpr hv
  unfold csvField
  split
  · simp [List.count_cons, List.count_append, count_csvEscape v '\n' (by decide), hcv]
  · exact hcv

theorem count_joinComma (l : List Str) (h : ∀ f ∈ l, f.count '\n' = 0) :
    (joinComma l).count '\n' = 0 := by
  induction l with
  | nil => rfl
  | cons f fs ih =>
    cases fs with
    | nil => exact h f (by simp)
    | cons g gs =>
      rw [show joinComma (f :: g :: gs) = f ++ ',' :: joinComma (g :: gs) from rfl]
      simp [List.count_append, List.count_cons, h f (by simp),
        ih (fun x hx => h x (by simp [hx]))]

theorem count_csvRecord (fs : List Str) (h : ∀ f ∈ fs, ('\n' : Char) ∉ f) :
    (csvRecord fs).count '\n' = 1 := by
  unfold csvRecord
  split
  · decide
  · rw [List.count_append]
    have h1 : (joinComma (fs.map csvField)).count '\n' = 0 := by
      apply count_joinComma
      intro f hf
      obtain ⟨x, hx, rfl⟩ := List.mem_map.mp hf
      exact count_csvField x (h x hx)
    rw [h1]
    decide

theorem count_flatten_rows (rows : List (List Str))
    (hr : ∀ r ∈ rows, ∀ v ∈ r, ('\n' : Char) ∉ v) :
    ((rows.map csvRecord).flatten).count '\n' = rows.length := by
  induction rows with
  | nil => rfl
  | cons r rs ih =>
    simp only [List.map_cons, List.flatten_cons, List.count_append, List.length_cons]
    rw [count_csvRecord r (hr r (by simp)), ih (fun x hx => hr x (by simp [hx]))]
    omega

theorem count_csvContent (header : List Str) (rows : List (List Str))
    (hh : ∀ f ∈ header, ('\n' : Char) ∉ f)
    (hr : ∀ r ∈ rows, ∀ v ∈ r, ('\n' : Char) ∉ v) :
    (csvContent header rows).count '\n' = rows.length + 1 := by
  unfold csvContent
  rw [List.count_append, count_csvRecord header hh, count_flatten_rows rows hr]
  omega

/-- C4: for a successful query-and-serialize stage over `N` rows and `K`
descriptor columns, the produced file parses back (with the standard
reader of the same dialect) into exactly `N + 1` records: the header —
exactly the `K` column names in descriptor order — followed by the `N`
data rows in result order.  Moreover, when no field value embeds a line
terminator, the file consists of exactly `N + 1` newline-terminated
physical lines (`N + 1` occurrences of the terminator). -/
theorem csv_file_line_structure (d : DbWorld) (content : Str)
    (hc : (run_query_and_write_csv d).content = some content)
    (hh : d.fieldnames ≠ []) (hrne : ∀ r ∈ d.rows, r ≠ []) :
    parseCsv content = d.fieldnames :: d.rows ∧
    (parseCsv content).length = d.rows.length + 1 ∧
    ((∀ f ∈ d.fieldnames, ('\n' : Char) ∉ f) →
     (∀ r ∈ d.rows, ∀ v ∈ r, ('\n' : Char) ∉ v) →
     content.count '\n' = d.rows.length + 1) := by
  have hceq := run_content_eq d content hc
  subst hceq
  refine ⟨csv_roundtrip_core _ _ hh hrne, ?_, ?_⟩
  · rw [csv_roundtrip_core _ _ hh hrne]
    simp
  · intro h1 h2
    exact count_csvContent _ _ h1 h2

def csvDb : DbWorld :=
  ⟨true, true, true, true, ["id".toList, "name".toList],
    [["1".toList, "alice".toList], ["2".toList, "bo,b".toList]]⟩

/-- C4 witness: a 2-row, 2-column result gives 3 records, header first. -/
theorem csv_file_line_structure_witness :
    csvDb.fieldnames ≠ [] ∧
    parseCsv (csvContent csvDb.fieldnames csvDb.rows) = csvDb.fieldnames :: csvDb.rows ∧
    (csvContent csvDb.fieldnames csvDb.rows).count '\n' = 3 :=
  ⟨by decide,
    (csv_file_line_structure csvDb (csvContent csvDb.fieldnames csvDb.rows) rfl
      (by decide) (by decide)).1,
    by decide⟩

/-- C5: a field value containing the delimiter, a quote character or a
newline is serialized quoted, its embedded quotes doubled by
`csvEscape`, and parsing the produced file with the standard reader
reproduces every original field value exactly (serialize-then-parse is
the identity on the table, hence on each field). -/
theorem csv_quoting_roundtrip (v : Str)
    (hv : (',' : Char) ∈ v ∨ ('"' : Char) ∈ v ∨ ('\n' : Char) ∈ v) :
    csvField v = '"' :: (csvEscape v ++ ['"']) ∧
    (∀ (header : List Str) (rows : List (List Str)), header ≠ [] →
      (∀ r ∈ rows, r ≠ []) → parseCsv (csvContent header rows) = header :: rows) := by
  constructor
  · have hq : csvNeedsQuote v = true := by
      rcases hv with h | h | h
      · exact List.any_eq_true.mpr ⟨',', h, by decide⟩
      · exact List.any_eq_true.mpr ⟨'"', h, by decide⟩
      · exact List.any_eq_true.mpr ⟨'\n', h, by decide⟩
    simp [csvField, hq]
  · intro header rows hh hr
    exact csv_roundtrip_core header rows hh hr

/-- C5 witness: the field `a,b` is quoted, and a file holding `x"y` and
`a,b` parses back to exactly those values. -/
theorem csv_quoting_roundtrip_witness :
    (',' : Char) ∈ ("a,b".toList) ∧
    csvField ("a,b".toList) = '"' :: (csvEscape ("a,b".toList) ++ ['"']) ∧
    parseCsv (csvContent ["x\"y".toList] [["a,b".toList]]) =
      ["x\"y".toList] :: [["a,b".toList]] :=
  ⟨by decide, (csv_quoting_roundtrip ("a,b".toList) (Or.inl (by decide))).1,
    (csv_quoting_roundtrip ("a,b".toList) (Or.inl (by decide))).2
      ["x\"y".toList] [["a,b".toList]] (by decide) (by decide)⟩
